import Mathlib

/-!
Verification development for the demo-registry repository: a JS registry
builder (markdown table → validated, content-hashed TSV artifact) and a Go
static file server (gzip middleware plus path-dependent Cache-Control).
Strings are modelled as lists of characters so that the JS/Go string
operations (trim, split, join, replaceAll, HasPrefix, Contains, Ext) can be
embedded as executable functions and reasoned about by induction.
-/

/-- Strings of the modelled programs, as lists of characters. -/
abbrev Str := List Char

/-- Convert a Lean string literal into the model representation. -/
def strL (s : String) : Str := s.toList

/-- The whitespace characters relevant to this development: the ASCII
characters trimmed by JS String.prototype.trim and matched by the regex
class backslash-s (space, tab, LF, CR, vertical tab, form feed). -/
def isWsChar (c : Char) : Bool :=
  c = ' ' || c = '\t' || c = '\n' || c = '\r' || c = '\x0b' || c = '\x0c'

/-- Models String.prototype.trim: drop leading and trailing whitespace. -/
def trimL (s : Str) : Str :=
  ((s.dropWhile isWsChar).reverse.dropWhile isWsChar).reverse

/-- Models String.prototype.split with a single-character separator
(JS semantics: splitting the empty string yields one empty piece). -/
def splitOnChar (sep : Char) : Str → List Str
  | [] => [[]]
  | c :: cs =>
    match splitOnChar sep cs with
    | [] => [[]]
    | p :: ps => if c = sep then [] :: p :: ps else (c :: p) :: ps

/-- Models Array.prototype.join with a single-character separator. -/
def joinWith (sep : Char) : List Str → Str
  | [] => []
  | [p] => p
  | p :: ps => p ++ sep :: joinWith sep ps

/-- Models String.prototype.replaceAll with a single-character pattern and
single-character replacement. -/
def replaceAllC (a b : Char) (s : Str) : Str :=
  s.map fun c => if c = a then b else c

/-- Models strings.HasPrefix / String.prototype.startsWith. -/
def startsWithL (patt s : Str) : Bool :=
  match patt, s with
  | [], _ => true
  | _ :: _, [] => false
  | a :: ps, b :: ss => a == b && startsWithL ps ss

/-- Models strings.HasSuffix. -/
def endsWithL (suff s : Str) : Bool :=
  startsWithL suff.reverse s.reverse

/-- Models strings.Contains / String.prototype.includes: substring test. -/
def containsSub (needle hay : Str) : Bool :=
  match hay with
  | [] => startsWithL needle []
  | _ :: t => startsWithL needle hay || containsSub needle t

/-- tsvEscape from the source: replace every tab, then every CR, then every
LF by a single space. -/
def tsvEscape (s : Str) : Str :=
  replaceAllC '\n' ' ' (replaceAllC '\r' ' ' (replaceAllC '\t' ' ' s))

/-- A parsed markdown-table row: the JS object mapping header name to cell
value, modelled as an association list with at most one binding per key. -/
abbrev Row := List (Str × Str)

/-- Models the JS object assignment row[k] = v: any previous binding of k is
replaced. -/
def setKey (r : Row) (k v : Str) : Row :=
  (r.filter fun p => decide (p.1 ≠ k)) ++ [(k, v)]

/-- First binding of a key in a row, if any (models the k-in-r test and
property read). -/
def getKey : Row → Str → Option Str
  | [], _ => none
  | (a, v) :: r, k => if a = k then some v else getKey r k

/-- Models reading a possibly missing field as a string: String(r.k ?? ""). -/
def getStr (r : Row) (k : Str) : Str := (getKey r k).getD []

def slugK : Str := strL "slug"
def titleK : Str := strL "title"
def urlK : Str := strL "url"
def tagsK : Str := strL "tags"

/-- The tags recomputation inside buildTSVBody: split the raw tags string on
commas, trim each piece, drop empty pieces, rejoin with commas. -/
def normTags (s : Str) : Str :=
  joinWith ',' (((splitOnChar ',' s).map trimL).filter fun t => decide (t ≠ []))

/-- The fixed TSV column-header line of buildTSVBody. -/
def headerLine : Str := joinWith '\t' [slugK, titleK, urlK, tagsK]

/-- The output line buildTSVBody emits for one row: trimmed slug, trimmed
title, trimmed url and the recomputed tags field, each passed through
tsvEscape, joined with tabs. -/
def serializeRow (r : Row) : Str :=
  joinWith '\t'
    [tsvEscape (trimL (getStr r slugK)),
     tsvEscape (trimL (getStr r titleK)),
     tsvEscape (trimL (getStr r urlK)),
     tsvEscape (normTags (getStr r tagsK))]

/-- buildTSVBody from the source: the column-header line and one line per
row, joined with LF and terminated by a single trailing LF. -/
def buildTSVBody (rows : List Row) : Str :=
  joinWith '\n' (headerLine :: rows.map serializeRow) ++ ['\n']

example : normTags (strL "a, ,b,,c") = strL "a,b,c" := by decide
example : tsvEscape (strL "x\ty") = strL "x y" := by decide

/-- Models mdText.split on the regex matching an optional CR followed by LF:
a CR immediately followed by LF ends a line, a lone LF ends a line, and a
lone CR is ordinary text. -/
def splitLines : Str → List Str
  | [] => [[]]
  | '\r' :: '\n' :: rest => [] :: splitLines rest
  | '\n' :: rest => [] :: splitLines rest
  | c :: rest =>
    match splitLines rest with
    | [] => [[]]
    | p :: ps => (c :: p) :: ps

def pipeS : Str := strL "|"

/-- The table-start scan of parseMarkdownTable: the index of the first line
whose trimmed form starts with a pipe (and contains a pipe) and is
immediately followed by a line whose trimmed form starts with a pipe. -/
def findTableStart : List Str → Option Nat
  | l1 :: l2 :: rest =>
    if startsWithL pipeS (trimL l1) && containsSub pipeS (trimL l1)
        && startsWithL pipeS (trimL l2) then some 0
    else (findTableStart (l2 :: rest)).map (· + 1)
  | _ => none

/-- Cell extraction of parseMarkdownTable: split a line on pipes, trim each
piece, discard empty pieces. -/
def parseCells (line : Str) : List Str :=
  ((splitOnChar '|' line).map trimL).filter fun x => decide (x ≠ [])

/-- One row object of parseMarkdownTable: for each header index c, assign
row[headers[c]] := cells[c] (cells have been right-padded beforehand). -/
def buildRow (headers cells : List Str) : Row :=
  (List.range headers.length).foldl
    (fun r c => setKey r (headers.getD c []) (cells.getD c [])) []

/-- The body-row loop of parseMarkdownTable: starting two lines after the
header, take lines whose trimmed form starts with a pipe; a line with zero
non-empty cells is skipped; cells are right-padded with empty strings up to
the header count; the first non-pipe line terminates the table. -/
def collectRows (headers : List Str) : List Str → List Row
  | [] => []
  | l :: rest =>
    if startsWithL pipeS (trimL l) then
      let cells := parseCells (trimL l)
      if cells = [] then collectRows headers rest
      else
        buildRow headers (cells ++ List.replicate (headers.length - cells.length) [])
          :: collectRows headers rest
    else []

def noTableMsg : Str := strL "No markdown table found in registry.md"
def delimMsg : Str := strL "Markdown delimiter line not found after header"

/-- parseMarkdownTable from the source: locate the table start, require the
delimiter line to contain "---", then extract headers and rows. -/
def parseMarkdownTable (mdText : Str) : Except Str (List Str × List Row) :=
  let lines := splitLines mdText
  match findTableStart lines with
  | none => .error noTableMsg
  | some start =>
    if containsSub (strL "---") (trimL (lines.getD (start + 1) [])) then
      let headers := parseCells (trimL (lines.getD start []))
      .ok (headers, collectRows headers (lines.drop (start + 2)))
    else .error delimMsg

/-- Decimal rendering of a natural number, for the row indices embedded in
validation messages. -/
def natStr (n : Nat) : Str := (Nat.repr n).toList

/-- Wrap a string in double quotes, as the template literals in the
validation messages do. -/
def quoteS (s : Str) : Str := '\"' :: s ++ ['\"']

/-- The leading "Row i: " part of a per-row validation message (i is the
0-based row position; messages are 1-based). -/
def rowTag (i : Nat) : Str := strL "Row " ++ natStr (i + 1) ++ strL ": "

/-- The duplicate-slug message: Duplicate slug "s" at rows f and j. -/
def dupMsg (slug : Str) (first repeatRow : Nat) : Str :=
  strL "Duplicate slug " ++ quoteS slug ++ strL " at rows " ++ natStr first
    ++ strL " and " ++ natStr repeatRow

/-- Models isHttpUrl from the source. The source parses the string with the
WHATWG URL constructor and accepts protocol http: or https:. This model
approximates that library call: it accepts exactly the strings that start,
case-insensitively, with http:// or https:// followed by at least one more
character. On every URL shape appearing in this development the two agree. -/
def isHttpUrl (s : Str) : Bool :=
  let t := s.map Char.toLower
  (startsWithL (strL "http://") t && decide (7 < t.length))
    || (startsWithL (strL "https://") t && decide (8 < t.length))

def requiredCols : List Str := [slugK, titleK, urlK, tagsK]

/-- The missing-column messages of validateRows for one row, in required
column order. -/
def missingColErrors (i : Nat) (r : Row) : List Str :=
  (requiredCols.filter fun k => decide (getKey r k = none)).map
    fun k => rowTag i ++ strL "missing column " ++ quoteS k

/-- The per-row checks of validateRows for row r at 0-based position i, in
source order: missing columns, empty slug, slug with whitespace, empty
title, empty url, url not http(s). -/
def perRowErrors (i : Nat) (r : Row) : List Str :=
  missingColErrors i r
    ++ (if trimL (getStr r slugK) = [] then [rowTag i ++ strL "empty slug"] else [])
    ++ (if (trimL (getStr r slugK)).any isWsChar then
          [rowTag i ++ strL "slug has whitespace: " ++ quoteS (trimL (getStr r slugK))]
        else [])
    ++ (if trimL (getStr r titleK) = [] then [rowTag i ++ strL "empty title"] else [])
    ++ (if trimL (getStr r urlK) = [] then [rowTag i ++ strL "empty url"] else [])
    ++ (if trimL (getStr r urlK) ≠ [] ∧ isHttpUrl (trimL (getStr r urlK)) = false then
          [rowTag i ++ strL "url is not http(s): " ++ quoteS (trimL (getStr r urlK))]
        else [])

/-- All per-row validation messages, rows processed in order starting at
0-based position i. -/
def perRowErrorsFrom (i : Nat) : List Row → List Str
  | [] => []
  | r :: rest => perRowErrors i r ++ perRowErrorsFrom (i + 1) rest

/-- Lookup in the seen-map of the duplicate-slug scan. -/
def lookupSeen : List (Str × Nat) → Str → Option Nat
  | [], _ => none
  | (s, n) :: rest, k => if s = k then some n else lookupSeen rest k

/-- The duplicate-slug scan of validateRows: rows with empty trimmed slug
are skipped; a slug already seen emits a message with the stored first-seen
1-based row index; an unseen slug is recorded with its 1-based row index. -/
def dupScan (seen : List (Str × Nat)) (i : Nat) : List Row → List Str
  | [] => []
  | r :: rest =>
    if trimL (getStr r slugK) = [] then dupScan seen (i + 1) rest
    else
      match lookupSeen seen (trimL (getStr r slugK)) with
      | some first => dupMsg (trimL (getStr r slugK)) first (i + 1) :: dupScan seen (i + 1) rest
      | none => dupScan ((trimL (getStr r slugK), i + 1) :: seen) (i + 1) rest

def dupErrors (rows : List Row) : List Str := dupScan [] 0 rows

/-- The full error report of validateRows: all per-row messages, then all
duplicate-slug messages. -/
def validationErrors (rows : List Row) : List Str :=
  perRowErrorsFrom 0 rows ++ dupErrors rows

/-- The single aggregated error message thrown by validateRows. -/
def aggMsg (errs : List Str) : Str :=
  strL "Registry validation failed:\n" ++ joinWith '\n' (errs.map fun e => strL "- " ++ e)

/-- validateRows from the source: collect every violation, and throw one
aggregated error exactly when the collection is non-empty. -/
def validateRows (rows : List Row) : Except Str Unit :=
  if validationErrors rows = [] then .ok () else .error (aggMsg (validationErrors rows))

/-!
SHA-256, embedded from the specification of the hash the source obtains via
crypto.createHash("sha256"), over lists of bytes (naturals below 256), with
32-bit words as naturals reduced modulo 2^32.
-/

def M32 : Nat := 4294967296

def rotr (n w : Nat) : Nat := ((w >>> n) ||| (w <<< (32 - n))) % M32

def smallSigma0 (x : Nat) : Nat := (rotr 7 x) ^^^ (rotr 18 x) ^^^ (x >>> 3)
def smallSigma1 (x : Nat) : Nat := (rotr 17 x) ^^^ (rotr 19 x) ^^^ (x >>> 10)
def bigSigma0 (x : Nat) : Nat := (rotr 2 x) ^^^ (rotr 13 x) ^^^ (rotr 22 x)
def bigSigma1 (x : Nat) : Nat := (rotr 6 x) ^^^ (rotr 11 x) ^^^ (rotr 25 x)

/-- The eight 32-bit words of a SHA-256 state. -/
structure Hash8 where
  a : Nat
  b : Nat
  c : Nat
  d : Nat
  e : Nat
  f : Nat
  g : Nat
  h : Nat
deriving DecidableEq

def sha256H0 : Hash8 :=
  ⟨1779033703, 3144134277, 1013904242, 2773480762,
   1359893119, 2600822924, 528734635, 1541459225⟩

def sha256K : List Nat :=
  [1116352408, 1899447441, 3049323471, 3921009573, 961987163,
   1508970993, 2453635748, 2870763221, 3624381080, 310598401,
   607225278, 1426881987, 1925078388, 2162078206, 2614888103,
   3248222580, 3835390401, 4022224774, 264347078, 604807628,
   770255983, 1249150122, 1555081692, 1996064986, 2554220882,
   2821834349, 2952996808, 3210313671, 3336571891, 3584528711,
   113926993, 338241895, 666307205, 773529912, 1294757372,
   1396182291, 1695183700, 1986661051, 2177026350, 2456956037,
   2730485921, 2820302411, 3259730800, 3345764771, 3516065817,
   3600352804, 4094571909, 275423344, 430227734, 506948616,
   659060556, 883997877, 958139571, 1322822218, 1537002063,
   1747873779, 1955562222, 2024104815, 2227730452, 2361852424,
   2428436474, 2756734187, 3204031479, 3329325298]

/-- Big-endian byte rendering of a natural in the given number of bytes. -/
def beBytes : Nat → Nat → List Nat
  | 0, _ => []
  | k + 1, n => beBytes k (n / 256) ++ [n % 256]

/-- SHA-256 padding: a 0x80 byte, zeros up to 56 mod 64, and the bit length
in eight big-endian bytes. -/
def padMessage (msg : List Nat) : List Nat :=
  msg ++ 0x80 :: List.replicate ((64 - ((msg.length + 9) % 64)) % 64) 0
    ++ beBytes 8 (8 * msg.length)

/-- Group bytes into big-endian 32-bit words. -/
def bytesToWords : List Nat → List Nat
  | b0 :: b1 :: b2 :: b3 :: rest =>
    (((b0 * 256 + b1) * 256 + b2) * 256 + b3) :: bytesToWords rest
  | _ => []

/-- Extend the 16 block words by k further schedule words. -/
def extendWords : Nat → List Nat → List Nat
  | 0, ws => ws
  | k + 1, ws =>
    extendWords k
      (ws ++ [(smallSigma1 (ws.getD (ws.length - 2) 0) + ws.getD (ws.length - 7) 0
               + smallSigma0 (ws.getD (ws.length - 15) 0) + ws.getD (ws.length - 16) 0) % M32])

/-- One round of the SHA-256 compression function, on round constant and
schedule word kw. -/
def compressStep (st : Hash8) (kw : Nat × Nat) : Hash8 :=
  let ch := (st.e &&& st.f) ^^^ ((st.e ^^^ 0xffffffff) &&& st.g)
  let maj := (st.a &&& st.b) ^^^ (st.a &&& st.c) ^^^ (st.b &&& st.c)
  let t1 := (st.h + bigSigma1 st.e + ch + kw.1 + kw.2) % M32
  let t2 := (bigSigma0 st.a + maj) % M32
  ⟨(t1 + t2) % M32, st.a, st.b, st.c, (st.d + t1) % M32, st.e, st.f, st.g⟩

/-- Compress one 64-byte block into the running hash state. -/
def compressBlock (h0 : Hash8) (block : List Nat) : Hash8 :=
  let st := (sha256K.zip (extendWords 48 (bytesToWords block))).foldl compressStep h0
  ⟨(h0.a + st.a) % M32, (h0.b + st.b) % M32, (h0.c + st.c) % M32, (h0.d + st.d) % M32,
   (h0.e + st.e) % M32, (h0.f + st.f) % M32, (h0.g + st.g) % M32, (h0.h + st.h) % M32⟩

/-- Split the padded message into 64-byte chunks (fuel-based so the
definition reduces definitionally). -/
def chunksOf64Aux : Nat → List Nat → List (List Nat)
  | 0, _ => []
  | _, [] => []
  | fuel + 1, l => l.take 64 :: chunksOf64Aux fuel (l.drop 64)

def chunksOf64 (l : List Nat) : List (List Nat) := chunksOf64Aux l.length l

/-- The SHA-256 digest of a byte list, as eight 32-bit words. -/
def sha256Words (msg : List Nat) : Hash8 :=
  (chunksOf64 (padMessage msg)).foldl compressBlock sha256H0

def hexDigits : Str := strL "0123456789abcdef"

def hexDigit (n : Nat) : Char := hexDigits.getD n '0'

/-- Eight lowercase hex characters of one 32-bit word, most significant
nibble first. -/
def wordHex (w : Nat) : Str :=
  (List.range 8).map fun i => hexDigit ((w >>> (28 - 4 * i)) % 16)

/-- Models sha256hex from the source: the lowercase hex rendering of the
SHA-256 digest of a byte list. -/
def sha256hex (msg : List Nat) : Str :=
  wordHex (sha256Words msg).a ++ wordHex (sha256Words msg).b
    ++ wordHex (sha256Words msg).c ++ wordHex (sha256Words msg).d
    ++ wordHex (sha256Words msg).e ++ wordHex (sha256Words msg).f
    ++ wordHex (sha256Words msg).g ++ wordHex (sha256Words msg).h

/-- UTF-8 encoding of one character. -/
def utf8Char (c : Char) : List Nat :=
  if c.toNat < 0x80 then [c.toNat]
  else if c.toNat < 0x800 then
    [0xc0 + c.toNat / 64, 0x80 + c.toNat % 64]
  else if c.toNat < 0x10000 then
    [0xe0 + c.toNat / 4096, 0x80 + (c.toNat / 64) % 64, 0x80 + c.toNat % 64]
  else
    [0xf0 + c.toNat / 262144, 0x80 + (c.toNat / 4096) % 64,
     0x80 + (c.toNat / 64) % 64, 0x80 + c.toNat % 64]

/-- Models Buffer.from(s, "utf8"): the UTF-8 bytes of a string. -/
def utf8Encode (s : Str) : List Nat := (s.map utf8Char).flatten

/-- The version string main computes: the first 16 characters of the
lowercase hex SHA-256 digest of the UTF-8 bytes of the body alone. -/
def buildVersion (rows : List Row) : Str :=
  (sha256hex (utf8Encode (buildTSVBody rows))).take 16

/-- The full file content main writes: the metadata line followed by the
body. -/
def fullContent (rows : List Row) : Str :=
  strL "#v=" ++ buildVersion rows ++ '\n' :: buildTSVBody rows

/-- The content-addressed output filename. -/
def hashedName (rows : List Row) : Str :=
  strL "registry." ++ buildVersion rows ++ strL ".tsv"

def tsvName : Str := strL "registry.tsv"

/-- Filesystem effects of one builder run, in program order. mkdirDist
models fs.mkdirSync(OUT_DIR, recursive: true); write models
fs.writeFileSync of the UTF-8 bytes of the given content at the given name
inside the dist directory. -/
inductive Effect where
  | mkdirDist : Effect
  | write : Str → Str → Effect
deriving DecidableEq

/-- main from the source, as the trace of filesystem effects together with
the run's outcome. The input is the content of registry.md, or none when
the file is missing (readFileSync then throws, after the directory was
created). Parse and validation errors propagate; on success both output
files are written with identical content. -/
def runBuild (input : Option Str) : List Effect × Except Str Unit :=
  match input with
  | none => ([Effect.mkdirDist], .error (strL "ENOENT"))
  | some md =>
    match parseMarkdownTable md with
    | .error e => ([Effect.mkdirDist], .error e)
    | .ok (_, rows) =>
      match validateRows rows with
      | .error e => ([Effect.mkdirDist], .error e)
      | .ok _ =>
        ([Effect.mkdirDist, Effect.write tsvName (fullContent rows),
          Effect.write (hashedName rows) (fullContent rows)], .ok ())

/-!
The Go static server. A request carries its URL path and the value returned
by r.Header.Get("Accept-Encoding") (the empty string when the header is
absent). Response headers are a list of key-value pairs with the semantics
of Header.Set (replace all bindings of the key) and Header.Add (append).
The body is recorded as the bytes the inner handler writes (for a gzip
response these are the bytes a client recovers by gunzipping the wire body,
by the round-trip contract of the gzip library); the gzipped flag records
whether the writer chain compresses them on the wire. The file system
behind http.FileServer is a lookup from path to file bytes. -/

structure HttpRequest where
  path : Str
  acceptEncoding : Str

structure HttpResponse where
  headers : List (Str × Str)
  status : Nat
  plainBody : List Nat
  gzipped : Bool

/-- Models Header.Set: drop every binding of the key, append the new one. -/
def hSet (hs : List (Str × Str)) (k v : Str) : List (Str × Str) :=
  (hs.filter fun p => decide (p.1 ≠ k)) ++ [(k, v)]

/-- Models Header.Add: append a binding. -/
def hAdd (hs : List (Str × Str)) (k v : Str) : List (Str × Str) :=
  hs ++ [(k, v)]

/-- Models Header.Get: the first binding of the key. -/
def hGet : List (Str × Str) → Str → Option Str
  | [], _ => none
  | (a, v) :: rest, k => if a = k then some v else hGet rest k

/-- Models path/filepath Ext via a backwards scan of the path: the suffix
from the final dot of the final path element, empty if there is none. -/
def extScan : Str → Str → Str
  | [], _ => []
  | c :: rest, acc =>
    if c = '/' then []
    else if c = '.' then '.' :: acc
    else extScan rest (c :: acc)

def extOf (p : Str) : Str := extScan p.reverse []

def lowerStr (s : Str) : Str := s.map Char.toLower

def ceK : Str := strL "Content-Encoding"
def gzipV : Str := strL "gzip"
def varyK : Str := strL "Vary"
def aeV : Str := strL "Accept-Encoding"
def acaoK : Str := strL "Access-Control-Allow-Origin"
def starV : Str := strL "*"
def ccK : Str := strL "Cache-Control"
def ccImmutable : Str := strL "public, max-age=31536000, immutable"
def ccStable : Str := strL "public, max-age=60"
def registryDot : Str := strL "/registry."
def dotTsv : Str := strL ".tsv"
def dotHtml : Str := strL ".html"
def dotJs : Str := strL ".js"
def dotCss : Str := strL ".css"
def regPath : Str := strL "/registry.tsv"

/-- The inner handler of the server: set the open CORS header, then the
Cache-Control hints (the hash-name branch first, else the exact stable
name), then delegate to the file server. Returns headers, status and body
bytes. -/
def rootHandler (fsys : Str → Option (List Nat)) (hs0 : List (Str × Str))
    (req : HttpRequest) : List (Str × Str) × Nat × List Nat :=
  let hs1 := hSet hs0 acaoK starV
  let hs2 :=
    if startsWithL registryDot req.path && endsWithL dotTsv req.path then
      hSet hs1 ccK ccImmutable
    else if req.path = regPath then hSet hs1 ccK ccStable
    else hs1
  match fsys req.path with
  | some b => (hs2, 200, b)
  | none => (hs2, 404, [])

/-- withGzip wrapping the inner handler, from the source: pass through
uncompressed when the Accept-Encoding value does not contain gzip or the
lowercased path extension is not one of .tsv/.html/.js/.css; otherwise set
Content-Encoding: gzip, add Vary: Accept-Encoding, and stream the inner
handler through a gzip writer — unless constructing the gzip writer fails
(gzFail), in which case the inner handler writes uncompressed while the two
headers remain set. -/
def serveRequest (gzFail : Bool) (fsys : Str → Option (List Nat))
    (req : HttpRequest) : HttpResponse :=
  if containsSub gzipV req.acceptEncoding = true then
    if lowerStr (extOf req.path) = dotTsv ∨ lowerStr (extOf req.path) = dotHtml
        ∨ lowerStr (extOf req.path) = dotJs ∨ lowerStr (extOf req.path) = dotCss then
      let s := rootHandler fsys (hAdd (hSet [] ceK gzipV) varyK aeV) req
      ⟨s.1, s.2.1, s.2.2, !gzFail⟩
    else
      let s := rootHandler fsys [] req
      ⟨s.1, s.2.1, s.2.2, false⟩
  else
    let s := rootHandler fsys [] req
    ⟨s.1, s.2.1, s.2.2, false⟩

/-!
Claim theorems.
-/

/-- A one-file file system holding only the stable registry file, used to
exercise the server at concrete requests. -/
def demoFs : Str → Option (List Nat) :=
  fun p => if p = regPath then some [35, 118, 61] else none

/-- Claim C1. The claim says a request for /registry.tsv without an
Accept-Encoding header receives Cache-Control: public, max-age=60. The code
disagrees: the hash-name branch tests HasPrefix "/registry." and HasSuffix
".tsv", which the stable name /registry.tsv also satisfies, so the response
carries the one-year immutable directive and the max-age=60 branch is
unreachable for the very path it tests. The remainder of the claim (body
uncompressed, no Content-Encoding header) does hold. This theorem evaluates
the server at the failing request. -/
theorem c1_stable_name_gets_immutable_cache_control :
    hGet (serveRequest false demoFs ⟨regPath, strL ""⟩).headers ccK = some ccImmutable
    ∧ hGet (serveRequest false demoFs ⟨regPath, strL ""⟩).headers ccK ≠ some ccStable
    ∧ hGet (serveRequest false demoFs ⟨regPath, strL ""⟩).headers ceK = none
    ∧ (serveRequest false demoFs ⟨regPath, strL ""⟩).gzipped = false
    ∧ (serveRequest false demoFs ⟨regPath, strL ""⟩).plainBody = [35, 118, 61]
    ∧ (startsWithL registryDot regPath && endsWithL dotTsv regPath) = true := by
  decide

/-- Claim C10. On every builder invocation — including a run that fails on a
missing input file, a parse error, or a validation error — the first
filesystem effect is the recursive, idempotent creation of the dist
directory, before the input file is read. -/
theorem c10_dist_created_first (input : Option Str) :
    ((runBuild input).1).head? = some Effect.mkdirDist := by
  cases input with
  | none => rfl
  | some md =>
    unfold runBuild
    rcases hp : parseMarkdownTable md with e | ⟨hd, rows⟩
    · simp [hp]
    · rcases hv : validateRows rows with e | u <;> simp [hp, hv]

/-- Witness for C10 at a concrete failing input (a document with no table). -/
theorem c10_witness :
    ((runBuild (some (strL "nothing here"))).1).head? = some Effect.mkdirDist :=
  c10_dist_created_first (some (strL "nothing here"))

/-!
Lemmas relating splitOnChar and joinWith, used for the TSV round-trip
claims.
-/

theorem splitOnChar_ne_nil (sep : Char) (s : Str) : splitOnChar sep s ≠ [] := by
  cases s with
  | nil => simp [splitOnChar]
  | cons c cs =>
    unfold splitOnChar
    rcases h : splitOnChar sep cs with _ | ⟨p, ps⟩
    · simp
    · by_cases hc : c = sep <;> simp [hc]

theorem splitOnChar_no_sep (sep : Char) (s : Str) (h : sep ∉ s) :
    splitOnChar sep s = [s] := by
  induction s with
  | nil => rfl
  | cons c cs ih =>
    have hc : c ≠ sep := fun hh => h (hh ▸ List.mem_cons_self c cs)
    have hcs : sep ∉ cs := fun hh => h (List.mem_cons_of_mem c hh)
    unfold splitOnChar
    rw [ih hcs]
    simp [hc]

theorem splitOnChar_cons (sep c : Char) (cs : Str) :
    splitOnChar sep (c :: cs) =
      match splitOnChar sep cs with
      | [] => [[]]
      | p :: ps => if c = sep then [] :: p :: ps else (c :: p) :: ps := rfl

theorem splitOnChar_append_cons (sep : Char) (p ys : Str) (h : sep ∉ p) :
    splitOnChar sep (p ++ sep :: ys) = p :: splitOnChar sep ys := by
  induction p with
  | nil =>
    rcases hs : splitOnChar sep ys with _ | ⟨q, qs⟩
    · exact absurd hs (splitOnChar_ne_nil sep ys)
    · rw [List.nil_append, splitOnChar_cons, hs]
      simp
  | cons c cs ih =>
    have hc : c ≠ sep := fun hh => h (hh ▸ List.mem_cons_self c cs)
    have hcs : sep ∉ cs := fun hh => h (List.mem_cons_of_mem c hh)
    rw [List.cons_append, splitOnChar_cons, ih hcs]
    simp [hc]

theorem splitOnChar_joinWith (sep : Char) (ps : List Str) (hne : ps ≠ [])
    (h : ∀ p ∈ ps, sep ∉ p) : splitOnChar sep (joinWith sep ps) = ps := by
  induction ps with
  | nil => exact absurd rfl hne
  | cons p ps ih =>
    cases ps with
    | nil => exact splitOnChar_no_sep sep p (h p (List.mem_cons_self p []))
    | cons q qs =>
      have hj : joinWith sep (p :: q :: qs) = p ++ sep :: joinWith sep (q :: qs) := rfl
      rw [hj, splitOnChar_append_cons sep p _ (h p (List.mem_cons_self p _)),
        ih (by simp) (fun r hr => h r (List.mem_cons_of_mem p hr))]

theorem joinWith_append_nil (sep : Char) (ps : List Str) (h : ps ≠ []) :
    joinWith sep (ps ++ [[]]) = joinWith sep ps ++ [sep] := by
  induction ps with
  | nil => exact absurd rfl h
  | cons p ps ih =>
    cases ps with
    | nil => rfl
    | cons q qs =>
      have h1 : joinWith sep ((p :: q :: qs) ++ [[]])
          = p ++ sep :: joinWith sep ((q :: qs) ++ [[]]) := rfl
      have h2 : joinWith sep (p :: q :: qs) = p ++ sep :: joinWith sep (q :: qs) := rfl
      rw [h1, ih (by simp), h2, List.append_assoc]
      rfl

theorem mem_joinWith (sep : Char) (ps : List Str) (c : Char)
    (h : c ∈ joinWith sep ps) : c = sep ∨ ∃ p ∈ ps, c ∈ p := by
  induction ps with
  | nil => simp [joinWith] at h
  | cons p ps ih =>
    cases ps with
    | nil =>
      right
      exact ⟨p, List.mem_cons_self p [], h⟩
    | cons q qs =>
      have h1 : joinWith sep (p :: q :: qs) = p ++ sep :: joinWith sep (q :: qs) := rfl
      rw [h1, List.mem_append, List.mem_cons] at h
      rcases h with hp | hc | hrest
      · exact Or.inr ⟨p, List.mem_cons_self p _, hp⟩
      · exact Or.inl hc
      · rcases ih hrest with hs | ⟨r, hr, hcr⟩
        · exact Or.inl hs
        · exact Or.inr ⟨r, List.mem_cons_of_mem p hr, hcr⟩

/-- A string free of embedded field and record delimiters: no tab, CR or
LF character. -/
abbrev noBadChars (s : Str) : Prop := ∀ c ∈ s, c ≠ '\t' ∧ c ≠ '\r' ∧ c ≠ '\n'

theorem tsvEscape_eq_self (s : Str) (h : noBadChars s) : tsvEscape s = s := by
  unfold tsvEscape replaceAllC
  rw [List.map_map, List.map_map]
  apply List.map_congr_left ?_ |>.trans (List.map_id s)
  intro c hc
  rcases h c hc with ⟨h1, h2, h3⟩
  simp [Function.comp, h1, h2, h3]

theorem not_mem_tsvEscape (s : Str) : noBadChars (tsvEscape s) := by
  intro c hc
  unfold tsvEscape replaceAllC at hc
  rw [List.map_map, List.map_map] at hc
  rcases List.mem_map.mp hc with ⟨a, _, ha⟩
  subst ha
  by_cases h1 : a = '\t'
  · subst h1
    decide
  by_cases h2 : a = '\r'
  · subst h2
    decide
  by_cases h3 : a = '\n'
  · subst h3
    decide
  simp only [Function.comp_apply, if_neg h1, if_neg h2, if_neg h3]
  exact ⟨h1, h2, h3⟩

theorem mem_of_mem_trimL (s : Str) (c : Char) (h : c ∈ trimL s) : c ∈ s := by
  unfold trimL at h
  rw [List.mem_reverse] at h
  have h1 := (List.dropWhile_sublist isWsChar).mem h
  rw [List.mem_reverse] at h1
  exact (List.dropWhile_sublist isWsChar).mem h1

theorem noBadChars_trimL (s : Str) (h : noBadChars s) : noBadChars (trimL s) :=
  fun c hc => h c (mem_of_mem_trimL s c hc)

theorem splitOnChar_cons_eq (sep c : Char) (cs p : Str) (ps : List Str)
    (hs : splitOnChar sep cs = p :: ps) :
    splitOnChar sep (c :: cs) = if c = sep then [] :: p :: ps else (c :: p) :: ps := by
  rw [splitOnChar_cons, hs]

theorem mem_of_mem_splitOnChar (sep : Char) (s q : Str) (c : Char)
    (hq : q ∈ splitOnChar sep s) (hc : c ∈ q) : c ∈ s := by
  induction s generalizing q with
  | nil =>
    simp [splitOnChar] at hq
    subst hq
    exact absurd hc (List.not_mem_nil c)
  | cons a cs ih =>
    rcases hs : splitOnChar sep cs with _ | ⟨p, ps⟩
    · exact absurd hs (splitOnChar_ne_nil sep cs)
    · rw [splitOnChar_cons_eq sep a cs p ps hs] at hq
      by_cases ha : a = sep
      · rw [if_pos ha] at hq
        rcases List.mem_cons.mp hq with h1 | h1
        · subst h1
          exact absurd hc (List.not_mem_nil c)
        · exact List.mem_cons_of_mem a (ih q (hs ▸ h1) hc)
      · rw [if_neg ha] at hq
        rcases List.mem_cons.mp hq with h1 | h1
        · subst h1
          rcases List.mem_cons.mp hc with h2 | h2
          · exact h2 ▸ List.mem_cons_self a cs
          · exact List.mem_cons_of_mem a (ih p (hs ▸ List.mem_cons_self p ps) h2)
        · exact List.mem_cons_of_mem a (ih q (hs ▸ List.mem_cons_of_mem p h1) hc)

theorem noBadChars_normTags (s : Str) (h : noBadChars s) : noBadChars (normTags s) := by
  intro c hc
  rcases mem_joinWith ',' _ c hc with hcomma | ⟨p, hp, hcp⟩
  · subst hcomma
    decide
  · rcases List.mem_filter.mp hp with ⟨hp1, _⟩
    rcases List.mem_map.mp hp1 with ⟨q, hq, hqp⟩
    subst hqp
    exact h c (mem_of_mem_splitOnChar ',' s q c hq (mem_of_mem_trimL q c hcp))

theorem tab_not_mem_serializeRow_field (r : Row) (p : Str)
    (hp : p ∈ [tsvEscape (trimL (getStr r slugK)), tsvEscape (trimL (getStr r titleK)),
      tsvEscape (trimL (getStr r urlK)), tsvEscape (normTags (getStr r tagsK))]) :
    '\t' ∉ p := by
  intro hc
  simp only [List.mem_cons, List.not_mem_nil, or_false] at hp
  rcases hp with h1 | h1 | h1 | h1 <;>
    exact (not_mem_tsvEscape _ '\t' (h1 ▸ hc)).1 rfl

/-- Splitting a serialized row line on tabs recovers exactly the four
emitted fields. -/
theorem splitOnChar_serializeRow (r : Row) :
    splitOnChar '\t' (serializeRow r) =
      [tsvEscape (trimL (getStr r slugK)), tsvEscape (trimL (getStr r titleK)),
       tsvEscape (trimL (getStr r urlK)), tsvEscape (normTags (getStr r tagsK))] :=
  splitOnChar_joinWith '\t' _ (by simp) (fun p hp => tab_not_mem_serializeRow_field r p hp)

theorem newline_not_mem_serializeRow (r : Row) : '\n' ∉ serializeRow r := by
  intro h
  rcases mem_joinWith '\t' _ '\n' h with h1 | ⟨p, hp, hcp⟩
  · exact absurd h1 (by decide)
  · simp only [List.mem_cons, List.not_mem_nil, or_false] at hp
    rcases hp with h1 | h1 | h1 | h1 <;>
      exact (not_mem_tsvEscape _ '\n' (h1 ▸ hcp)).2.2 rfl

/-- Splitting the body on LF yields the column-header line, one line per
row, and one final empty piece from the trailing LF. -/
theorem splitOnChar_buildTSVBody (rows : List Row) :
    splitOnChar '\n' (buildTSVBody rows) = (headerLine :: rows.map serializeRow) ++ [[]] := by
  unfold buildTSVBody
  rw [← joinWith_append_nil '\n' (headerLine :: rows.map serializeRow) (by simp)]
  apply splitOnChar_joinWith '\n' _ (by simp)
  intro p hp
  rcases List.mem_cons.mp hp with h1 | h1
  · subst h1
    decide
  · rcases List.mem_append.mp h1 with h2 | h2
    · rcases List.mem_map.mp h2 with ⟨r, _, hr⟩
      exact hr ▸ newline_not_mem_serializeRow r
    · simp only [List.mem_singleton] at h2
      subst h2
      exact List.not_mem_nil '\n'

/-- Claim C4. For a row set whose four fields are free of tab, CR and LF,
splitting the serialized body on LF (dropping the column-header line at
position 0) and the i-th data line on tabs reconstructs exactly the trimmed
slug, trimmed title, trimmed url and recomputed tags value of the i-th row,
in order. -/
theorem c4_tsv_roundtrip (rows : List Row)
    (hrows : ∀ r ∈ rows, noBadChars (getStr r slugK) ∧ noBadChars (getStr r titleK)
      ∧ noBadChars (getStr r urlK) ∧ noBadChars (getStr r tagsK))
    (i : Nat) (hi : i < rows.length) :
    splitOnChar '\t' ((splitOnChar '\n' (buildTSVBody rows)).getD (i + 1) []) =
      [trimL (getStr (rows.getD i []) slugK), trimL (getStr (rows.getD i []) titleK),
       trimL (getStr (rows.getD i []) urlK), normTags (getStr (rows.getD i []) tagsK)] := by
  have hmap : i < (rows.map serializeRow).length := by simpa using hi
  have hline : (splitOnChar '\n' (buildTSVBody rows)).getD (i + 1) []
      = serializeRow (rows.getD i []) := by
    rw [splitOnChar_buildTSVBody, List.cons_append, List.getD_cons_succ,
      List.getD_append _ _ _ _ hmap, List.getD_eq_getElem _ _ hmap, List.getElem_map,
      List.getD_eq_getElem _ _ hi]
  have hr := hrows (rows.getD i []) (by
    rw [List.getD_eq_getElem _ _ hi]
    exact List.getElem_mem hi)
  rw [hline, splitOnChar_serializeRow,
    tsvEscape_eq_self _ (noBadChars_trimL _ hr.1),
    tsvEscape_eq_self _ (noBadChars_trimL _ hr.2.1),
    tsvEscape_eq_self _ (noBadChars_trimL _ hr.2.2.1),
    tsvEscape_eq_self _ (noBadChars_normTags _ hr.2.2.2)]

/-- A concrete well-formed row for witnesses. -/
def demoRow : Row :=
  [(slugK, strL "alpha"), (titleK, strL "Alpha Tool"),
   (urlK, strL "https://alpha.example/"), (tagsK, strL "cli, web")]

/-- Witness for C4 at a concrete one-row table. -/
theorem c4_witness :
    splitOnChar '\t' ((splitOnChar '\n' (buildTSVBody [demoRow])).getD 1 []) =
      [trimL (getStr demoRow slugK), trimL (getStr demoRow titleK),
       trimL (getStr demoRow urlK), normTags (getStr demoRow tagsK)] :=
  c4_tsv_roundtrip [demoRow] (by decide) 0 (by decide)

/-- A row whose raw tags value contains an interior tab. -/
def tabTagsRow : Row :=
  [(slugK, strL "a"), (titleK, strL "T"), (urlK, strL "https://x.example/"),
   (tagsK, 'x' :: '\t' :: 'y' :: [])]

/-- Counterexample to claim C7 as stated. For tags input consisting of x,
tab, y, the split/trim/drop/rejoin recomputation yields the same string
with the tab intact, but the serialized tags field — read back from the
emitted line — is x space y, because buildTSVBody passes the recomputed
value through the tab/CR/LF-to-space sanitizer afterwards. -/
theorem c7_counterexample :
    (splitOnChar '\t' ((splitOnChar '\n' (buildTSVBody [tabTagsRow])).getD 1 [])).getD 3 []
        = strL "x y"
    ∧ normTags (getStr tabTagsRow tagsK) = 'x' :: '\t' :: 'y' :: []
    ∧ (splitOnChar '\t' ((splitOnChar '\n' (buildTSVBody [tabTagsRow])).getD 1 [])).getD 3 []
        ≠ normTags (getStr tabTagsRow tagsK) := by
  decide

/-- Claim C7, amended: the serialized tags field equals the raw tags string
split on commas, trimmed, empties dropped, rejoined with commas — and then
passed through the tab/CR/LF-to-space sanitizer; in particular the input
"a, ,b,,c" serializes to "a,b,c". -/
theorem c7_tags_field (r : Row) :
    (splitOnChar '\t' ((splitOnChar '\n' (buildTSVBody [r])).getD 1 [])).getD 3 []
        = tsvEscape (normTags (getStr r tagsK))
    ∧ tsvEscape (normTags (strL "a, ,b,,c")) = strL "a,b,c" := by
  constructor
  · have hline : (splitOnChar '\n' (buildTSVBody [r])).getD 1 [] = serializeRow r := by
      rw [splitOnChar_buildTSVBody]
      rfl
    rw [hline, splitOnChar_serializeRow]
    rfl
  · decide

/-- Witness for C7 (amended form) at a concrete row. -/
theorem c7_witness :
    (splitOnChar '\t' ((splitOnChar '\n' (buildTSVBody [demoRow])).getD 1 [])).getD 3 []
      = tsvEscape (normTags (getStr demoRow tagsK)) :=
  (c7_tags_field demoRow).1

/-!
Duplicate-slug reporting (claim C6).
-/

/-- The 0-based index of the first row whose trimmed slug equals s. -/
def firstSlugIdx (s : Str) : List Row → Nat
  | [] => 0
  | r :: rest => if trimL (getStr r slugK) = s then 0 else firstSlugIdx s rest + 1

theorem firstSlugIdx_le (s : Str) (rows : List Row) (i : Nat) (hi : i < rows.length)
    (hs : trimL (getStr (rows.getD i []) slugK) = s) : firstSlugIdx s rows ≤ i := by
  induction rows generalizing i with
  | nil => exact absurd hi (by simp)
  | cons r rest ih =>
    unfold firstSlugIdx
    by_cases h0 : trimL (getStr r slugK) = s
    · rw [if_pos h0]
      exact Nat.zero_le i
    · rw [if_neg h0]
      cases i with
      | zero =>
        rw [List.getD_cons_zero] at hs
        exact absurd hs h0
      | succ i =>
        rw [List.getD_cons_succ] at hs
        exact Nat.succ_le_succ (ih i (Nat.lt_of_succ_lt_succ hi) hs)

theorem firstSlugIdx_spec (s : Str) (rows : List Row) (i : Nat) (hi : i < rows.length)
    (hs : trimL (getStr (rows.getD i []) slugK) = s) :
    trimL (getStr (rows.getD (firstSlugIdx s rows) []) slugK) = s
    ∧ ∀ k < firstSlugIdx s rows, trimL (getStr (rows.getD k []) slugK) ≠ s := by
  induction rows generalizing i with
  | nil => exact absurd hi (by simp)
  | cons r rest ih =>
    by_cases h0 : trimL (getStr r slugK) = s
    · constructor
      · unfold firstSlugIdx
        rw [if_pos h0, List.getD_cons_zero]
        exact h0
      · unfold firstSlugIdx
        rw [if_pos h0]
        intro k hk
        exact absurd hk (Nat.not_lt_zero k)
    · cases i with
      | zero =>
        rw [List.getD_cons_zero] at hs
        exact absurd hs h0
      | succ i =>
        rw [List.getD_cons_succ] at hs
        have h := ih i (Nat.lt_of_succ_lt_succ hi) hs
        constructor
        · unfold firstSlugIdx
          rw [if_neg h0, List.getD_cons_succ]
          exact h.1
        · unfold firstSlugIdx
          rw [if_neg h0]
          intro k hk
          cases k with
          | zero =>
            rw [List.getD_cons_zero]
            exact h0
          | succ k =>
            rw [List.getD_cons_succ]
            exact h.2 k (Nat.lt_of_succ_lt_succ hk)

theorem dupScan_mem_of_seen (s : Str) (f : Nat) (rest : List Row) :
    ∀ (seen : List (Str × Nat)) (i0 j : Nat),
      j < rest.length → trimL (getStr (rest.getD j []) slugK) = s → s ≠ [] →
      lookupSeen seen s = some f →
      dupMsg s f (i0 + j + 1) ∈ dupScan seen i0 rest := by
  induction rest with
  | nil =>
    intro seen i0 j hj
    exact absurd hj (by simp)
  | cons r rest ih =>
    intro seen i0 j hj hs hne hlook
    cases j with
    | zero =>
      rw [List.getD_cons_zero] at hs
      unfold dupScan
      rw [hs, if_neg hne, hlook]
      exact List.mem_cons_self _ _
    | succ j =>
      rw [List.getD_cons_succ] at hs
      unfold dupScan
      by_cases h0 : trimL (getStr r slugK) = []
      · rw [if_pos h0]
        rw [show i0 + (j + 1) + 1 = (i0 + 1) + j + 1 by omega]
        exact ih seen (i0 + 1) j (Nat.lt_of_succ_lt_succ hj) hs hne hlook
      · rw [if_neg h0]
        cases hl : lookupSeen seen (trimL (getStr r slugK)) with
        | some f2 =>
          apply List.mem_cons_of_mem
          rw [show i0 + (j + 1) + 1 = (i0 + 1) + j + 1 by omega]
          exact ih seen (i0 + 1) j (Nat.lt_of_succ_lt_succ hj) hs hne hlook
        | none =>
          have hne2 : trimL (getStr r slugK) ≠ s := by
            intro he
            rw [he, hlook] at hl
            exact Option.noConfusion hl
          have hlook2 : lookupSeen ((trimL (getStr r slugK), i0 + 1) :: seen) s = some f := by
            unfold lookupSeen
            rw [if_neg hne2]
            exact hlook
          rw [show i0 + (j + 1) + 1 = (i0 + 1) + j + 1 by omega]
          exact ih _ (i0 + 1) j (Nat.lt_of_succ_lt_succ hj) hs hne hlook2

theorem dupScan_mem_of_first (s : Str) (rest : List Row) :
    ∀ (seen : List (Str × Nat)) (i0 i j : Nat),
      i < j → j < rest.length →
      trimL (getStr (rest.getD i []) slugK) = s →
      trimL (getStr (rest.getD j []) slugK) = s → s ≠ [] →
      (∀ k < i, trimL (getStr (rest.getD k []) slugK) ≠ s) →
      lookupSeen seen s = none →
      dupMsg s (i0 + i + 1) (i0 + j + 1) ∈ dupScan seen i0 rest := by
  induction rest with
  | nil =>
    intro seen i0 i j _ hj
    exact absurd hj (by simp)
  | cons r rest ih =>
    intro seen i0 i j hij hj hsi hsj hne hmin hlook
    cases i with
    | zero =>
      rw [List.getD_cons_zero] at hsi
      cases j with
      | zero => exact absurd hij (by omega)
      | succ j =>
        rw [List.getD_cons_succ] at hsj
        unfold dupScan
        rw [hsi, if_neg hne, hlook]
        have hlook2 : lookupSeen ((s, i0 + 1) :: seen) s = some (i0 + 1) := by
          unfold lookupSeen
          rw [if_pos rfl]
        rw [show i0 + (j + 1) + 1 = (i0 + 1) + j + 1 by omega,
          show i0 + 0 + 1 = i0 + 1 by omega]
        exact dupScan_mem_of_seen s (i0 + 1) rest _ (i0 + 1) j
          (Nat.lt_of_succ_lt_succ hj) hsj hne hlook2
    | succ i =>
      cases j with
      | zero => exact absurd hij (by omega)
      | succ j =>
        rw [List.getD_cons_succ] at hsi hsj
        have hr0 : trimL (getStr r slugK) ≠ s := by
          have := hmin 0 (Nat.succ_pos i)
          rwa [List.getD_cons_zero] at this
        have hmin2 : ∀ k < i, trimL (getStr (rest.getD k []) slugK) ≠ s := by
          intro k hk
          have := hmin (k + 1) (Nat.succ_lt_succ hk)
          rwa [List.getD_cons_succ] at this
        unfold dupScan
        rw [show i0 + (i + 1) + 1 = (i0 + 1) + i + 1 by omega,
          show i0 + (j + 1) + 1 = (i0 + 1) + j + 1 by omega]
        by_cases h0 : trimL (getStr r slugK) = []
        · rw [if_pos h0]
          exact ih seen (i0 + 1) i j (Nat.lt_of_succ_lt_succ hij)
            (Nat.lt_of_succ_lt_succ hj) hsi hsj hne hmin2 hlook
        · rw [if_neg h0]
          cases hl : lookupSeen seen (trimL (getStr r slugK)) with
          | some f2 =>
            exact List.mem_cons_of_mem _ (ih seen (i0 + 1) i j (Nat.lt_of_succ_lt_succ hij)
              (Nat.lt_of_succ_lt_succ hj) hsi hsj hne hmin2 hlook)
          | none =>
            have hlook2 : lookupSeen ((trimL (getStr r slugK), i0 + 1) :: seen) s = none := by
              unfold lookupSeen
              rw [if_neg hr0]
              exact hlook
            exact ih _ (i0 + 1) i j (Nat.lt_of_succ_lt_succ hij)
              (Nat.lt_of_succ_lt_succ hj) hsi hsj hne hmin2 hlook2

/-- A row whose slug consists of whitespace only, so that its trimmed slug
is the empty string. -/
def emptySlugRow : Row :=
  [(slugK, strL " "), (titleK, strL "T"), (urlK, strL "https://x.example/"), (tagsK, strL "")]

/-- Counterexample to claim C6 as stated. In a table of two rows whose
trimmed slug is the empty string, that slug value occurs in two rows, and
validation does fail — but the error report consists of exactly the two
empty-slug lines: the duplicate-slug scan skips rows with empty trimmed
slug, so no line names the repeated slug together with the two row
indices. -/
theorem c6_counterexample :
    trimL (getStr emptySlugRow slugK) = []
    ∧ validationErrors [emptySlugRow, emptySlugRow]
        = [strL "Row 1: empty slug", strL "Row 2: empty slug"]
    ∧ ∀ e ∈ validationErrors [emptySlugRow, emptySlugRow],
        e ≠ dupMsg (trimL (getStr emptySlugRow slugK)) 1 2 := by
  decide

/-- Claim C6, amended: for every row set in which some nonempty trimmed
slug value occurs in two or more rows, validation fails, and for each
repeat occurrence at 0-based position j the report contains the line naming
that slug together with the 1-based index of its first-seen row and the
1-based index 1 + j of the repeat row. -/
theorem c6_duplicate_slug_reported (rows : List Row) (j : Nat) (hj : j < rows.length)
    (hne : trimL (getStr (rows.getD j []) slugK) ≠ [])
    (hdup : ∃ i, i < j
      ∧ trimL (getStr (rows.getD i []) slugK) = trimL (getStr (rows.getD j []) slugK)) :
    validationErrors rows ≠ []
    ∧ dupMsg (trimL (getStr (rows.getD j []) slugK))
        (firstSlugIdx (trimL (getStr (rows.getD j []) slugK)) rows + 1) (j + 1)
        ∈ validationErrors rows := by
  rcases hdup with ⟨i, hij, hsi⟩
  have hi : i < rows.length := Nat.lt_trans hij hj
  have hspec := firstSlugIdx_spec _ rows i hi hsi
  have hfle : firstSlugIdx (trimL (getStr (rows.getD j []) slugK)) rows ≤ i :=
    firstSlugIdx_le _ rows i hi hsi
  have hmem : dupMsg (trimL (getStr (rows.getD j []) slugK))
      (firstSlugIdx (trimL (getStr (rows.getD j []) slugK)) rows + 1) (j + 1)
      ∈ dupErrors rows := by
    have := dupScan_mem_of_first _ rows [] 0
      (firstSlugIdx (trimL (getStr (rows.getD j []) slugK)) rows) j
      (Nat.lt_of_le_of_lt hfle hij) hj hspec.1 rfl hne hspec.2 rfl
    rwa [Nat.zero_add, Nat.zero_add] at this
  have hmem2 : dupMsg (trimL (getStr (rows.getD j []) slugK))
      (firstSlugIdx (trimL (getStr (rows.getD j []) slugK)) rows + 1) (j + 1)
      ∈ validationErrors rows := List.mem_append_right _ hmem
  exact ⟨List.ne_nil_of_mem hmem2, hmem2⟩

/-- Rows realizing the spec's duplicate example: slug "a" at (1-based) rows
2 and 4. -/
def dupDemoRows : List Row :=
  [[(slugK, strL "b"), (titleK, strL "B"), (urlK, strL "https://b.example/"), (tagsK, strL "")],
   [(slugK, strL "a"), (titleK, strL "A"), (urlK, strL "https://a.example/"), (tagsK, strL "")],
   [(slugK, strL "c"), (titleK, strL "C"), (urlK, strL "https://c.example/"), (tagsK, strL "")],
   [(slugK, strL "a"), (titleK, strL "A2"), (urlK, strL "https://a2.example/"), (tagsK, strL "")]]

/-- Witness for C6 (amended form): the build of dupDemoRows fails and its
report mentions slug "a" at rows 2 and 4. -/
theorem c6_witness :
    validationErrors dupDemoRows ≠ []
    ∧ dupMsg (strL "a") 2 4 ∈ validationErrors dupDemoRows :=
  c6_duplicate_slug_reported dupDemoRows 3 (by decide) (by decide)
    ⟨1, by decide, by decide⟩

theorem wordHex_length (w : Nat) : (wordHex w).length = 8 := by
  simp [wordHex]

theorem sha256hex_length (m : List Nat) : (sha256hex m).length = 64 := by
  simp [sha256hex, wordHex_length]

/-- Claim C2. For every validated row set (parsed from some input and
passing validation), the builder writes the identical content to both
registry.tsv and registry.(version).tsv; the content is the line
"#v=" ++ version followed by LF and then the serialized body, and the
version is the lowercase hex SHA-256 digest of the UTF-8 bytes of the body
alone, truncated to its first 16 characters. -/
theorem c2_build_outputs (md : Str) (hd : List Str) (rows : List Row)
    (hp : parseMarkdownTable md = .ok (hd, rows))
    (hv : validationErrors rows = []) :
    runBuild (some md) =
      ([Effect.mkdirDist, Effect.write tsvName (fullContent rows),
        Effect.write (hashedName rows) (fullContent rows)], .ok ())
    ∧ fullContent rows = strL "#v=" ++ buildVersion rows ++ '\n' :: buildTSVBody rows
    ∧ hashedName rows = strL "registry." ++ buildVersion rows ++ strL ".tsv"
    ∧ buildVersion rows = (sha256hex (utf8Encode (buildTSVBody rows))).take 16
    ∧ (buildVersion rows).length = 16 := by
  refine ⟨?_, rfl, rfl, rfl, ?_⟩
  · have hval : validateRows rows = .ok () := by
      unfold validateRows
      rw [hv]
      rfl
    simp only [runBuild, hp, hval]
  · unfold buildVersion
    rw [List.length_take, sha256hex_length]
    decide

/-- A one-row markdown table that parses to [demoRow] and validates. -/
def demoMd : Str :=
  strL "| slug | title | url | tags |\n| --- | --- | --- | --- |\n| alpha | Alpha Tool | https://alpha.example/ | cli, web |\n"

/-- Witness for C2 at a concrete valid table. -/
theorem c2_witness :
    runBuild (some demoMd) =
      ([Effect.mkdirDist, Effect.write tsvName (fullContent [demoRow]),
        Effect.write (hashedName [demoRow]) (fullContent [demoRow])], .ok ()) :=
  (c2_build_outputs demoMd [slugK, titleK, urlK, tagsK] [demoRow]
    (by rfl) (by decide)).1

/-- Claim C5. When the parsed row set has any validation violation, the run
aborts with the single aggregated error and its effect trace contains no
write: only the directory creation happened. -/
theorem c5_no_output_on_validation_error (md : Str) (hd : List Str) (rows : List Row)
    (hp : parseMarkdownTable md = .ok (hd, rows))
    (hv : validationErrors rows ≠ []) :
    runBuild (some md) = ([Effect.mkdirDist], .error (aggMsg (validationErrors rows))) := by
  have hval : validateRows rows = .error (aggMsg (validationErrors rows)) := by
    unfold validateRows
    rw [if_neg hv]
  simp only [runBuild, hp, hval]

/-- A table whose single row has a non-http(s) url, so validation fails. -/
def badMd : Str :=
  strL "| slug | title | url | tags |\n| --- | --- | --- | --- |\n| a | T | ftp://x.example/ | t |\n"

def badRow : Row :=
  [(slugK, strL "a"), (titleK, strL "T"), (urlK, strL "ftp://x.example/"), (tagsK, strL "t")]

/-- Witness for C5 at a concrete invalid table. -/
theorem c5_witness :
    runBuild (some badMd) = ([Effect.mkdirDist], .error (aggMsg (validationErrors [badRow]))) :=
  c5_no_output_on_validation_error badMd [slugK, titleK, urlK, tagsK] [badRow]
    (by rfl) (by decide)

/-!
Table detection (claim C8).
-/

/-- The table-start condition at line index i: a line exists at i + 1, and
the trimmed lines at i and i + 1 both start with a pipe. -/
abbrev tablePairAt (lines : List Str) (i : Nat) : Prop :=
  i + 1 < lines.length
  ∧ startsWithL pipeS (trimL (lines.getD i [])) = true
  ∧ startsWithL pipeS (trimL (lines.getD (i + 1) [])) = true

theorem containsSub_of_startsWith_pipe (t : Str) (h : startsWithL pipeS t = true) :
    containsSub pipeS t = true := by
  cases t with
  | nil => exact absurd h (by decide)
  | cons c cs =>
    show (startsWithL pipeS (c :: cs) || containsSub pipeS cs) = true
    rw [h, Bool.true_or]

theorem tablePairAt_cons_succ (l1 : Str) (ls : List Str) (i : Nat) :
    tablePairAt (l1 :: ls) (i + 1) ↔ tablePairAt ls i := by
  unfold tablePairAt
  rw [List.getD_cons_succ, List.getD_cons_succ, List.length_cons]
  constructor
  · rintro ⟨h1, h2, h3⟩
    exact ⟨by omega, h2, h3⟩
  · rintro ⟨h1, h2, h3⟩
    exact ⟨by omega, h2, h3⟩

theorem findTableStart_none_iff (lines : List Str) :
    findTableStart lines = none ↔ ∀ i, ¬ tablePairAt lines i := by
  induction lines with
  | nil =>
    constructor
    · intro _ i hp
      have := hp.1
      simp at this
    · intro _
      rfl
  | cons l1 tail ih =>
    cases tail with
    | nil =>
      constructor
      · intro _ i hp
        have := hp.1
        simp at this
      · intro _
        rfl
    | cons l2 rest =>
      by_cases hc : (startsWithL pipeS (trimL l1) && containsSub pipeS (trimL l1)
          && startsWithL pipeS (trimL l2)) = true
      · constructor
        · intro h0
          unfold findTableStart at h0
          rw [if_pos hc] at h0
          exact Option.noConfusion h0
        · intro hall
          exfalso
          apply hall 0
          simp only [Bool.and_eq_true] at hc
          refine ⟨by simp, ?_, ?_⟩
          · rw [List.getD_cons_zero]
            exact hc.1.1
          · rw [List.getD_cons_succ, List.getD_cons_zero]
            exact hc.2
      · have hiff0 : ¬ tablePairAt (l1 :: l2 :: rest) 0 := by
          intro hp
          apply hc
          rcases hp with ⟨_, h1, h2⟩
          rw [List.getD_cons_zero] at h1
          rw [List.getD_cons_succ, List.getD_cons_zero] at h2
          rw [h1, containsSub_of_startsWith_pipe _ h1, h2]
          rfl
        have hstep : findTableStart (l1 :: l2 :: rest)
            = (findTableStart (l2 :: rest)).map (· + 1) := by
          show (if (startsWithL pipeS (trimL l1) && containsSub pipeS (trimL l1)
              && startsWithL pipeS (trimL l2)) = true then some 0
            else (findTableStart (l2 :: rest)).map (· + 1)) = _
          rw [if_neg hc]
        constructor
        · intro h0 i
          rw [hstep] at h0
          have hnone : findTableStart (l2 :: rest) = none := by
            cases hfs : findTableStart (l2 :: rest) with
            | none => rfl
            | some k =>
              rw [hfs] at h0
              exact Option.noConfusion h0
          cases i with
          | zero => exact hiff0
          | succ i =>
            rw [tablePairAt_cons_succ]
            exact (ih.mp hnone) i
        · intro hall
          rw [hstep, ih.mpr (fun i hp => hall (i + 1) ((tablePairAt_cons_succ l1 _ i).mpr hp))]
          rfl

theorem findTableStart_first (lines : List Str) :
    ∀ i, tablePairAt lines i → (∀ k < i, ¬ tablePairAt lines k) →
      findTableStart lines = some i := by
  induction lines with
  | nil =>
    intro i hp _
    have := hp.1
    simp at this
  | cons l1 tail ih =>
    cases tail with
    | nil =>
      intro i hp _
      have := hp.1
      simp at this
    | cons l2 rest =>
      intro i hp hmin
      cases i with
      | zero =>
        rcases hp with ⟨_, h1, h2⟩
        rw [List.getD_cons_zero] at h1
        rw [List.getD_cons_succ, List.getD_cons_zero] at h2
        have hc : (startsWithL pipeS (trimL l1) && containsSub pipeS (trimL l1)
            && startsWithL pipeS (trimL l2)) = true := by
          rw [h1, containsSub_of_startsWith_pipe _ h1, h2]
          rfl
        show (if (startsWithL pipeS (trimL l1) && containsSub pipeS (trimL l1)
            && startsWithL pipeS (trimL l2)) = true then some 0
          else (findTableStart (l2 :: rest)).map (· + 1)) = some 0
        rw [if_pos hc]
      | succ i =>
        have h0 : ¬ tablePairAt (l1 :: l2 :: rest) 0 := hmin 0 (Nat.succ_pos i)
        have hc : ¬ (startsWithL pipeS (trimL l1) && containsSub pipeS (trimL l1)
            && startsWithL pipeS (trimL l2)) = true := by
          intro hcc
          apply h0
          simp only [Bool.and_eq_true] at hcc
          refine ⟨by simp, ?_, ?_⟩
          · rw [List.getD_cons_zero]
            exact hcc.1.1
          · rw [List.getD_cons_succ, List.getD_cons_zero]
            exact hcc.2
        show (if (startsWithL pipeS (trimL l1) && containsSub pipeS (trimL l1)
            && startsWithL pipeS (trimL l2)) = true then some 0
          else (findTableStart (l2 :: rest)).map (· + 1)) = some (i + 1)
        rw [if_neg hc, ih i ((tablePairAt_cons_succ _ _ i).mp hp)
          (fun k hk hpk => hmin (k + 1) (Nat.succ_lt_succ hk)
            ((tablePairAt_cons_succ _ _ k).mpr hpk))]
        rfl

/-- Claim C8. The parser raises the no-table-found error exactly when no
line index i has both the trimmed line at i and the trimmed line at i + 1
starting with a pipe; and when such an index exists, the least one is the
table start the parser selects (the index whose line parseMarkdownTable
reads the headers from). -/
theorem c8_no_table_iff (md : Str) :
    (parseMarkdownTable md = .error noTableMsg ↔ ∀ i, ¬ tablePairAt (splitLines md) i)
    ∧ ∀ i, tablePairAt (splitLines md) i → (∀ k < i, ¬ tablePairAt (splitLines md) k) →
        findTableStart (splitLines md) = some i := by
  constructor
  · constructor
    · intro he
      apply (findTableStart_none_iff (splitLines md)).mp
      cases hfs : findTableStart (splitLines md) with
      | none => rfl
      | some k =>
        exfalso
        simp only [parseMarkdownTable] at he
        rw [hfs] at he
        have he2 : (if containsSub (strL "---") (trimL ((splitLines md).getD (k + 1) [])) = true
            then (Except.ok (parseCells (trimL ((splitLines md).getD k [])),
              collectRows (parseCells (trimL ((splitLines md).getD k [])))
                ((splitLines md).drop (k + 2))) : Except Str (List Str × List Row))
            else Except.error delimMsg) = Except.error noTableMsg := he
        by_cases hd : containsSub (strL "---") (trimL ((splitLines md).getD (k + 1) [])) = true
        · rw [if_pos hd] at he2
          exact Except.noConfusion he2
        · rw [if_neg hd] at he2
          have : delimMsg = noTableMsg := by
            injection he2
          exact absurd this (by decide)
    · intro hall
      have h := (findTableStart_none_iff _).mpr hall
      simp only [parseMarkdownTable]
      rw [h]
  · exact findTableStart_first (splitLines md)

/-- A two-line document whose table starts at line index 0. -/
def tableMd : Str := strL "| a |\n| --- |\n"

/-- Witness for C8: on tableMd the pair condition holds at index 0, and the
parser selects index 0 as the table start. -/
theorem c8_witness : findTableStart (splitLines tableMd) = some 0 :=
  (c8_no_table_iff tableMd).2 0 (by decide)
    (fun k hk => absurd hk (Nat.not_lt_zero k))

/-!
Server lemmas (claims C3 and C9).
-/

theorem startsWithL_append (p r : Str) : startsWithL p (p ++ r) = true := by
  induction p with
  | nil => rfl
  | cons c cs ih => simp [startsWithL, ih]

theorem endsWithL_append (s r : Str) : endsWithL s (r ++ s) = true := by
  unfold endsWithL
  rw [List.reverse_append]
  exact startsWithL_append s.reverse r.reverse

theorem extScan_step (c : Char) (hc1 : c ≠ '/') (hc2 : c ≠ '.') (xs acc : Str) :
    extScan (c :: xs) acc = extScan xs (c :: acc) := by
  show (if c = '/' then [] else if c = '.' then '.' :: acc else extScan xs (c :: acc)) = _
  rw [if_neg hc1, if_neg hc2]

theorem extScan_dot (xs acc : Str) : extScan ('.' :: xs) acc = '.' :: acc := by
  show (if '.' = '/' then [] else if ('.' : Char) = '.' then '.' :: acc
    else extScan xs ('.' :: acc)) = '.' :: acc
  rw [if_neg (by decide), if_pos rfl]

/-- The extension of any path ending in ".tsv" is ".tsv". -/
theorem extOf_append_tsv (xs : Str) : extOf (xs ++ strL ".tsv") = strL ".tsv" := by
  unfold extOf
  have h : (xs ++ strL ".tsv").reverse = 'v' :: 's' :: 't' :: '.' :: xs.reverse := by
    rw [show strL ".tsv" = ['.', 't', 's', 'v'] from rfl, List.reverse_append]
    rfl
  rw [h, extScan_step 'v' (by decide) (by decide), extScan_step 's' (by decide) (by decide),
    extScan_step 't' (by decide) (by decide), extScan_dot]
  rfl

/-- The gzip branch of serveRequest: when the Accept-Encoding value
mentions gzip and the lowercased extension is one of the four compressible
ones, the inner handler runs with Content-Encoding and Vary preset, and the
body is gzip-compressed on the wire exactly when the gzip writer could be
constructed. -/
theorem serveRequest_gzip_branch (gzFail : Bool) (fsys : Str → Option (List Nat))
    (p ae : Str) (hae : containsSub gzipV ae = true)
    (hext : lowerStr (extOf p) = dotTsv ∨ lowerStr (extOf p) = dotHtml
      ∨ lowerStr (extOf p) = dotJs ∨ lowerStr (extOf p) = dotCss) :
    serveRequest gzFail fsys ⟨p, ae⟩ =
      ⟨(rootHandler fsys [(ceK, gzipV), (varyK, aeV)] ⟨p, ae⟩).1,
       (rootHandler fsys [(ceK, gzipV), (varyK, aeV)] ⟨p, ae⟩).2.1,
       (rootHandler fsys [(ceK, gzipV), (varyK, aeV)] ⟨p, ae⟩).2.2, !gzFail⟩ := by
  simp only [serveRequest]
  rw [if_pos hae, if_pos hext]
  rfl

/-- On a path with the hash-name shape (prefix "/registry.", suffix
".tsv") that the file system resolves, the inner handler sets the open CORS
header and the one-year immutable Cache-Control, and serves the file
bytes. -/
theorem rootHandler_hashed (fsys : Str → Option (List Nat)) (hs0 : List (Str × Str))
    (p ae : Str) (b : List Nat) (hpre : startsWithL registryDot p = true)
    (hsuf : endsWithL dotTsv p = true) (hf : fsys p = some b) :
    rootHandler fsys hs0 ⟨p, ae⟩ =
      (hSet (hSet hs0 acaoK starV) ccK ccImmutable, 200, b) := by
  simp only [rootHandler]
  rw [if_pos (show (startsWithL registryDot p && endsWithL dotTsv p) = true by
    rw [hpre, hsuf]; rfl), hf]

/-- The inner handler on any path the file system resolves: status 200, the
file bytes, and the headers determined by the cache-hint branch. -/
theorem rootHandler_found (fsys : Str → Option (List Nat)) (hs0 : List (Str × Str))
    (p ae : Str) (b : List Nat) (hf : fsys p = some b) :
    rootHandler fsys hs0 ⟨p, ae⟩ =
      (if (startsWithL registryDot p && endsWithL dotTsv p) = true then
        hSet (hSet hs0 acaoK starV) ccK ccImmutable
      else if p = regPath then hSet (hSet hs0 acaoK starV) ccK ccStable
      else hSet hs0 acaoK starV, 200, b) := by
  simp only [rootHandler]
  rw [hf]

/-- Claim C3. A request for /registry.(hash).tsv with a non-empty hash and
an Accept-Encoding value mentioning gzip receives Content-Encoding: gzip,
Cache-Control: public, max-age=31536000, immutable, and
Vary: Accept-Encoding; the byte stream fed to the gzip writer — what the
client recovers by gunzipping the wire body — is exactly the served file's
bytes. -/
theorem c3_hashed_request_gzip (hash ae : Str) (fsys : Str → Option (List Nat))
    (b : List Nat) (hh : hash ≠ [])
    (hae : containsSub gzipV ae = true)
    (hf : fsys (strL "/registry." ++ hash ++ strL ".tsv") = some b) :
    hGet (serveRequest false fsys ⟨strL "/registry." ++ hash ++ strL ".tsv", ae⟩).headers ceK
        = some gzipV
    ∧ hGet (serveRequest false fsys ⟨strL "/registry." ++ hash ++ strL ".tsv", ae⟩).headers ccK
        = some ccImmutable
    ∧ hGet (serveRequest false fsys ⟨strL "/registry." ++ hash ++ strL ".tsv", ae⟩).headers varyK
        = some aeV
    ∧ (serveRequest false fsys ⟨strL "/registry." ++ hash ++ strL ".tsv", ae⟩).gzipped = true
    ∧ (serveRequest false fsys ⟨strL "/registry." ++ hash ++ strL ".tsv", ae⟩).plainBody = b := by
  have hps : strL "/registry." ++ hash ++ strL ".tsv"
      = registryDot ++ (hash ++ strL ".tsv") := List.append_assoc _ _ _
  have hext : lowerStr (extOf (strL "/registry." ++ hash ++ strL ".tsv")) = dotTsv := by
    rw [extOf_append_tsv]
    rfl
  have hpre : startsWithL registryDot (strL "/registry." ++ hash ++ strL ".tsv") = true := by
    rw [hps]
    exact startsWithL_append registryDot (hash ++ strL ".tsv")
  have hsuf : endsWithL dotTsv (strL "/registry." ++ hash ++ strL ".tsv") = true :=
    endsWithL_append dotTsv (strL "/registry." ++ hash)
  rw [serveRequest_gzip_branch false fsys _ ae hae (Or.inl hext),
    rootHandler_hashed fsys _ _ ae b hpre hsuf hf]
  refine ⟨?_, ?_, ?_, rfl, rfl⟩
  · show hGet (hSet (hSet [(ceK, gzipV), (varyK, aeV)] acaoK starV) ccK ccImmutable) ceK
      = some gzipV
    decide
  · show hGet (hSet (hSet [(ceK, gzipV), (varyK, aeV)] acaoK starV) ccK ccImmutable) ccK
      = some ccImmutable
    decide
  · show hGet (hSet (hSet [(ceK, gzipV), (varyK, aeV)] acaoK starV) ccK ccImmutable) varyK
      = some aeV
    decide

/-- A one-file file system holding one hash-named registry file. -/
def demoHashFs : Str → Option (List Nat) :=
  fun p => if p = strL "/registry.abcdef0123456789.tsv" then some [104, 105] else none

/-- Witness for C3 at the spec's example request. -/
theorem c3_witness :
    hGet (serveRequest false demoHashFs
        ⟨strL "/registry." ++ strL "abcdef0123456789" ++ strL ".tsv", strL "gzip"⟩).headers ceK
      = some gzipV
    ∧ hGet (serveRequest false demoHashFs
        ⟨strL "/registry." ++ strL "abcdef0123456789" ++ strL ".tsv", strL "gzip"⟩).headers ccK
      = some ccImmutable
    ∧ hGet (serveRequest false demoHashFs
        ⟨strL "/registry." ++ strL "abcdef0123456789" ++ strL ".tsv", strL "gzip"⟩).headers varyK
      = some aeV
    ∧ (serveRequest false demoHashFs
        ⟨strL "/registry." ++ strL "abcdef0123456789" ++ strL ".tsv", strL "gzip"⟩).gzipped = true
    ∧ (serveRequest false demoHashFs
        ⟨strL "/registry." ++ strL "abcdef0123456789" ++ strL ".tsv", strL "gzip"⟩).plainBody
      = [104, 105] :=
  c3_hashed_request_gzip (strL "abcdef0123456789") (strL "gzip") demoHashFs [104, 105]
    (by decide) (by decide) (by decide)

/-- Claim C9. When the client accepts gzip and the extension is
compressible, but constructing the gzip writer fails, the body is served
uncompressed by the inner handler while the previously set
Content-Encoding: gzip and Vary: Accept-Encoding headers remain on the
response. -/
theorem c9_gzip_init_failure (p ae : Str) (fsys : Str → Option (List Nat)) (b : List Nat)
    (hae : containsSub gzipV ae = true)
    (hext : lowerStr (extOf p) = dotTsv ∨ lowerStr (extOf p) = dotHtml
      ∨ lowerStr (extOf p) = dotJs ∨ lowerStr (extOf p) = dotCss)
    (hf : fsys p = some b) :
    (serveRequest true fsys ⟨p, ae⟩).gzipped = false
    ∧ hGet (serveRequest true fsys ⟨p, ae⟩).headers ceK = some gzipV
    ∧ hGet (serveRequest true fsys ⟨p, ae⟩).headers varyK = some aeV
    ∧ (serveRequest true fsys ⟨p, ae⟩).plainBody = b := by
  rw [serveRequest_gzip_branch true fsys p ae hae hext,
    rootHandler_found fsys _ p ae b hf]
  by_cases h1 : (startsWithL registryDot p && endsWithL dotTsv p) = true
  · rw [if_pos h1]
    refine ⟨rfl, ?_, ?_, rfl⟩
    · show hGet (hSet (hSet [(ceK, gzipV), (varyK, aeV)] acaoK starV) ccK ccImmutable) ceK
        = some gzipV
      decide
    · show hGet (hSet (hSet [(ceK, gzipV), (varyK, aeV)] acaoK starV) ccK ccImmutable) varyK
        = some aeV
      decide
  · rw [if_neg h1]
    by_cases h2 : p = regPath
    · rw [if_pos h2]
      refine ⟨rfl, ?_, ?_, rfl⟩
      · show hGet (hSet (hSet [(ceK, gzipV), (varyK, aeV)] acaoK starV) ccK ccStable) ceK
          = some gzipV
        decide
      · show hGet (hSet (hSet [(ceK, gzipV), (varyK, aeV)] acaoK starV) ccK ccStable) varyK
          = some aeV
        decide
    · rw [if_neg h2]
      refine ⟨rfl, ?_, ?_, rfl⟩
      · show hGet (hSet [(ceK, gzipV), (varyK, aeV)] acaoK starV) ceK = some gzipV
        decide
      · show hGet (hSet [(ceK, gzipV), (varyK, aeV)] acaoK starV) varyK = some aeV
        decide

/-- Witness for C9 at a concrete request whose gzip writer fails. -/
theorem c9_witness :
    (serveRequest true demoFs ⟨regPath, strL "gzip"⟩).gzipped = false
    ∧ hGet (serveRequest true demoFs ⟨regPath, strL "gzip"⟩).headers ceK = some gzipV
    ∧ hGet (serveRequest true demoFs ⟨regPath, strL "gzip"⟩).headers varyK = some aeV
    ∧ (serveRequest true demoFs ⟨regPath, strL "gzip"⟩).plainBody = [35, 118, 61] :=
  c9_gzip_init_failure regPath (strL "gzip") demoFs [35, 118, 61]
    (by decide) (Or.inl (by decide)) (by decide)

